import Mathlib

/-!
Verification of the MCQ-extraction pipeline (`src/app.py`) against its
natural-language specification.

The Python source is shallowly embedded: strings are `List Char` / `String`,
OCR token tables (`pytesseract.image_to_data` output) are lists of `Token`,
raster images are grayscale pixel grids (`Img`), and every regular expression
used by the source is hand-compiled to an executable matcher with Python `re`
semantics (leftmost scan, greedy quantifiers with backtracking, `MULTILINE`
anchoring via `(?:^|\n)`).
-/

/-- Python `\s` (ASCII whitespace, the class relevant to the source's inputs). -/
def isPySpace (c : Char) : Bool :=
  c = ' ' || c = '\t' || c = '\n' || c = '\r' || c = '\x0b' || c = '\x0c'

/-- Python `\w` for ASCII: letters, digits, underscore. -/
def isWordC (c : Char) : Bool := c.isAlpha || c.isDigit || c = '_'

/-- The dash alternatives of the `\d{1,3}[-–—]` question pattern. -/
def isDashC (c : Char) : Bool := c = '-' || c = '–' || c = '—'

/-- The `[A-E]` character class of the option-removal pattern (no IGNORECASE). -/
def isAE (c : Char) : Bool := c = 'A' || c = 'B' || c = 'C' || c = 'D' || c = 'E'

/-- Length of the maximal prefix of `l` whose characters satisfy `p`. -/
def countWhile (p : Char → Bool) : List Char → Nat
  | [] => 0
  | c :: cs => if p c then countWhile p cs + 1 else 0

/-- `re.sub(r'\x00', '', text)`: drop every null character. -/
def removeNulls (l : List Char) : List Char := l.filter (fun c => !(c = '\x00'))

/-- `re.sub(r'\s+', ' ', text)`: every maximal whitespace run becomes one space. -/
def collapseWs : List Char → List Char
  | [] => []
  | [c] => if isPySpace c then [' '] else [c]
  | c :: d :: cs =>
    if isPySpace c then
      (if isPySpace d then collapseWs (d :: cs) else ' ' :: collapseWs (d :: cs))
    else c :: collapseWs (d :: cs)

/-- One scan of `re.sub(r'(\d+)X(\s)', r'\1.\2', text)` where `X` is the
single-character class `isX` (used for `[oO]`, `l` and `,`).  Fuelled scan:
at a digit, the greedy `\d+` takes the whole run; the run must be followed by
an `isX` character and a whitespace character, which are rewritten to
`.` + the same whitespace; otherwise the scan advances one character. -/
def fixMGo (isX : Char → Bool) : Nat → List Char → List Char
  | 0, l => l
  | _ + 1, [] => []
  | fuel + 1, c :: cs =>
    if c.isDigit then
      let d := countWhile Char.isDigit (c :: cs)
      match (c :: cs).get? d, (c :: cs).get? (d + 1) with
      | some x, some w =>
        if isX x && isPySpace w then
          (c :: cs).take d ++ '.' :: w :: fixMGo isX fuel ((c :: cs).drop (d + 2))
        else c :: fixMGo isX fuel cs
      | _, _ => c :: fixMGo isX fuel cs
    else c :: fixMGo isX fuel cs

/-- `re.sub(r'(\d+)\.(\w)', r'\1. \2', text)`: insert a space between a
digit-run-plus-period marker and an immediately following word character. -/
def fixDWGo : Nat → List Char → List Char
  | 0, l => l
  | _ + 1, [] => []
  | fuel + 1, c :: cs =>
    if c.isDigit then
      let d := countWhile Char.isDigit (c :: cs)
      match (c :: cs).get? d, (c :: cs).get? (d + 1) with
      | some '.', some w =>
        if isWordC w then
          (c :: cs).take d ++ '.' :: ' ' :: w :: fixDWGo fuel ((c :: cs).drop (d + 2))
        else c :: fixDWGo fuel cs
      | _, _ => c :: fixDWGo fuel cs
    else c :: fixDWGo fuel cs

/-- `re.sub(r'\n{3,}', '\n\n', text)`: a run of three or more newlines becomes
exactly two newlines. -/
def fixNlGo : Nat → List Char → List Char
  | 0, l => l
  | _ + 1, [] => []
  | fuel + 1, c :: cs =>
    if c = '\n' then
      let r := 1 + countWhile (fun x => x = '\n') cs
      if 3 ≤ r then '\n' :: '\n' :: fixNlGo fuel (cs.drop (r - 1))
      else c :: fixNlGo fuel cs
    else c :: fixNlGo fuel cs

/-- `preprocess_ocr_text` on character lists: the seven `re.sub` steps of
`src/app.py` lines 26–38, in source order. -/
def preprocessL (l : List Char) : List Char :=
  let t1 := removeNulls l
  let t2 := collapseWs t1
  let t3 := fixMGo (fun c => c = 'o' || c = 'O') (t2.length + 1) t2
  let t4 := fixMGo (fun c => c = 'l') (t3.length + 1) t3
  let t5 := fixMGo (fun c => c = ',') (t4.length + 1) t4
  let t6 := fixDWGo (t5.length + 1) t5
  fixNlGo (t6.length + 1) t6

/-- `preprocess_ocr_text` (src/app.py lines 21–40). -/
def preprocess_ocr_text (s : String) : String := ⟨preprocessL s.data⟩

/-- Python `str.strip()` on a character list. -/
def stripL (l : List Char) : List Char :=
  ((l.dropWhile isPySpace).reverse.dropWhile isPySpace).reverse

/-- `clean_text` (src/app.py lines 17–19): drop nulls, then strip. -/
def clean_text (s : String) : String := ⟨stripL (s.data.filter (fun c => !(c = '\x00')))⟩

/-- A `re` match record: start offset, end offset (after the match's trailing
consumption), and the captured group-1 text. -/
structure RMatch where
  start : Nat
  stop : Nat
  group : List Char
deriving DecidableEq, Repr

/-- Run of Python whitespace at the head of `l`. -/
def wsRun (l : List Char) : Nat := countWhile isPySpace l

/-- Body of `(\d{1,3}\.)\s*` after the `(?:^|\n)` anchor: 1–3 digits (a longer
digit run cannot satisfy the following literal, matching `re` backtracking),
a period, then greedy `\s*`.  Returns (total consumed, captured group). -/
def body1 (l : List Char) : Option (Nat × List Char) :=
  let d := countWhile Char.isDigit l
  if 1 ≤ d ∧ d ≤ 3 ∧ l.get? d = some '.' then
    some (d + 1 + wsRun (l.drop (d + 1)), l.take (d + 1))
  else none

/-- Body of `(Q\d{1,3}\.?)\s*` (IGNORECASE, so `Q` or `q`): greedy `\d{1,3}`
takes at most three digits of the run, then an optional period, then `\s*`. -/
def body2 : List Char → Option (Nat × List Char)
  | [] => none
  | c :: rest =>
    if c = 'Q' || c = 'q' then
      let d := countWhile Char.isDigit rest
      if 1 ≤ d then
        let dd := min d 3
        let g := dd + 1 + (if rest.get? dd = some '.' then 1 else 0)
        some (g + wsRun ((c :: rest).drop g), (c :: rest).take g)
      else none
    else none

/-- Body of `(\d{1,3}\))\s*`. -/
def body3 (l : List Char) : Option (Nat × List Char) :=
  let d := countWhile Char.isDigit l
  if 1 ≤ d ∧ d ≤ 3 ∧ l.get? d = some ')' then
    some (d + 1 + wsRun (l.drop (d + 1)), l.take (d + 1))
  else none

/-- Body of `(\(\d{1,3}\))\s*`. -/
def body4 : List Char → Option (Nat × List Char)
  | [] => none
  | c :: rest =>
    if c = '(' then
      let d := countWhile Char.isDigit rest
      if 1 ≤ d ∧ d ≤ 3 ∧ rest.get? d = some ')' then
        some (d + 2 + wsRun (rest.drop (d + 1)), (c :: rest).take (d + 2))
      else none
    else none

/-- Case-insensitive literal prefix test. -/
def matchCI : List Char → List Char → Bool
  | [], _ => true
  | _ :: _, [] => false
  | p :: ps, c :: cs => (p.toLower = c.toLower) && matchCI ps cs

/-- Body of `(Question\s+\d{1,3}\.?)\s*` (IGNORECASE): the literal, at least
one whitespace (greedy `\s+` — only the maximal run can be followed by a
digit), 1–3 digits of the following run, an optional period, then `\s*`. -/
def body5 (l : List Char) : Option (Nat × List Char) :=
  if matchCI "Question".data l then
    let w := wsRun (l.drop 8)
    if 1 ≤ w then
      let rest := l.drop (8 + w)
      let d := countWhile Char.isDigit rest
      if 1 ≤ d then
        let dd := min d 3
        let g := 8 + w + dd + (if rest.get? dd = some '.' then 1 else 0)
        some (g + wsRun (l.drop g), l.take g)
      else none
    else none
  else none

/-- Body of `(\d{1,3}[-–—]\s*)`: here the greedy `\s*` sits inside the group. -/
def body6 (l : List Char) : Option (Nat × List Char) :=
  let d := countWhile Char.isDigit l
  if 1 ≤ d ∧ d ≤ 3 then
    match l.get? d with
    | some c =>
      if isDashC c then
        let g := d + 1 + wsRun (l.drop (d + 1))
        some (g, l.take g)
      else none
    | none => none
  else none

/-- Body of the fallback pattern `(\d{1,3}\.)` (no trailing `\s*`). -/
def bodyFallback (l : List Char) : Option (Nat × List Char) :=
  let d := countWhile Char.isDigit l
  if 1 ≤ d ∧ d ≤ 3 ∧ l.get? d = some '.' then
    some (d + 1, l.take (d + 1))
  else none

/-- The `(?:^|\n)` prefix of every question pattern, under `re.MULTILINE`:
first the zero-width `^` alternative (valid when at text start or just after a
newline), then the newline-consuming alternative — Python tries them in that
order. -/
def tryWith (body : List Char → Option (Nat × List Char))
    (atLS : Bool) (l : List Char) : Option (Nat × List Char) :=
  match (if atLS then body l else none) with
  | some r => some r
  | none =>
    match l with
    | '\n' :: rest => (body rest).map (fun r => (r.1 + 1, r.2))
    | _ => none

/-- `re.finditer` for an anchored pattern: leftmost non-overlapping matches,
scanning position by position.  `atLS` records whether `^` matches at the
current position; every match consumes at least one character, so fuel
`l.length + 1` is enough. -/
def scanGo (body : List Char → Option (Nat × List Char)) :
    Nat → Bool → Nat → List Char → List RMatch
  | 0, _, _, _ => []
  | fuel + 1, atLS, pos, l =>
    match tryWith body atLS l with
    | some (k, g) =>
      ⟨pos, pos + k, g⟩ ::
        scanGo body fuel ((l.take k).getLastD ' ' = '\n') (pos + k) (l.drop k)
    | none =>
      match l with
      | [] => []
      | c :: cs => scanGo body fuel (c = '\n') (pos + 1) cs

/-- The six registered pattern families of `enhanced_question_detection`
(src/app.py lines 47–54), in source order. -/
def bodies : Fin 6 → (List Char → Option (Nat × List Char)) :=
  ![body1, body2, body3, body4, body5, body6]

/-- All matches of pattern family `i` over `l`. -/
def matchesOfPat (i : Fin 6) (l : List Char) : List RMatch :=
  scanGo (bodies i) (l.length + 1) true 0 l

/-- All matches of the fallback pattern `(?:^|\n)(\d{1,3}\.)`. -/
def fallbackMatches (l : List Char) : List RMatch :=
  scanGo bodyFallback (l.length + 1) true 0 l

/-- One fold step of the best-pattern selection loop (lines 60–66): a later
family replaces the current best only with strictly more matches. -/
def detStep (l : List Char) (best : List RMatch) (i : Fin 6) : List RMatch :=
  if best.length < (matchesOfPat i l).length then matchesOfPat i l else best

/-- `enhanced_question_detection` (src/app.py lines 42–68): try all six
families and keep the one with the most matches. -/
def enhanced_question_detection (l : List Char) : List RMatch :=
  (List.finRange 6).foldl (detStep l) []

/-- Lookahead `(?=\([A-E]\)|\s*$)` of the option-removal pattern (no MULTILINE
here, so `\s*$` holds exactly when only whitespace remains). -/
def laOpt (r : List Char) : Bool :=
  (match r with
   | '(' :: x :: ')' :: _ => isAE x
   | _ => false) || r.all isPySpace

/-- Backtracking search for the greedy `[^(]*`: the largest `m` (at most the
length of the non-`(` run) at which the lookahead holds. -/
def bestM (rest : List Char) : Nat → Option Nat
  | 0 => if laOpt rest then some 0 else none
  | m + 1 => if laOpt (rest.drop (m + 1)) then some (m + 1) else bestM rest m

/-- Attempt of `\s*\([A-E]\)[^(]*(?=\([A-E]\)|\s*$)` at the current position;
returns the consumed length on success. -/
def tryOpt (l : List Char) : Option Nat :=
  let w := wsRun l
  match l.get? w, l.get? (w + 1), l.get? (w + 2) with
  | some '(', some x, some ')' =>
    if isAE x then
      let rest := l.drop (w + 3)
      match bestM rest (countWhile (fun c => !(c = '(')) rest) with
      | some m => some (w + 3 + m)
      | none => none
    else none
  | _, _, _ => none

/-- `re.sub(r'\s*\([A-E]\)[^(]*(?=\([A-E]\)|\s*$)', '', question_text)`
(src/app.py line 107): delete every match, scanning left to right. -/
def optRemoveGo : Nat → List Char → List Char
  | 0, l => l
  | fuel + 1, l =>
    match tryOpt l with
    | some k => optRemoveGo fuel (l.drop k)
    | none =>
      match l with
      | [] => []
      | c :: cs => c :: optRemoveGo fuel cs

/-- Option-marker removal applied to a question's text. -/
def optRemove (l : List Char) : List Char := optRemoveGo (l.length + 1) l

/-- Slice `l[a:b]` in Python notation. -/
def sliceL (l : List Char) (a b : Nat) : List Char := (l.drop a).take (b - a)

/-- The per-match loop of `split_questions_from_ocr_enhanced` (lines 92–109):
group-1 stripped is the question number; the text up to the next match's start
(or text end) is stripped and has its `(A)`/(…) option runs removed. -/
def buildQs (cl : List Char) : List RMatch → List (String × String)
  | [] => []
  | m :: rest =>
    let endPos := match rest with | m2 :: _ => m2.start | [] => cl.length
    (⟨stripL m.group⟩, ⟨optRemove (stripL (sliceL cl m.stop endPos))⟩)
      :: buildQs cl rest

/-- The fallback branch (lines 79–90): `re.split` on `(?:^|\n)(\d{1,3}\.)`
pairs each captured marker with the stripped text up to the next match. -/
def buildFallback (cl : List Char) : List RMatch → List (String × String)
  | [] => []
  | m :: rest =>
    let endPos := match rest with | m2 :: _ => m2.start | [] => cl.length
    (⟨stripL m.group⟩, ⟨stripL (sliceL cl m.stop endPos)⟩) :: buildFallback cl rest

/-- `split_questions_from_ocr_enhanced` (src/app.py lines 70–111). -/
def split_questions_from_ocr_enhanced (s : String) : List (String × String) :=
  let cl := preprocessL s.data
  let ms := enhanced_question_detection cl
  if ms = [] then buildFallback cl (fallbackMatches cl) else buildQs cl ms

/-- One recognized token of `pytesseract.image_to_data(..., DICT)`: text,
confidence (`-1` is the engine's "no confidence" sentinel) and bounding box. -/
structure Token where
  text : String
  conf : Int
  top : Int
  left : Int
  width : Int
  height : Int
deriving DecidableEq, Repr

/-- The parallel-array OCR dictionary, as a token list. -/
abbrev OcrData := List Token

/-- Full-match test for `^\d{1,3}\.$`. -/
def isQNum1 (l : List Char) : Bool :=
  let d := countWhile Char.isDigit l
  decide (1 ≤ d ∧ d ≤ 3) && decide (l.drop d = ['.'])

/-- Full-match test for `^Q\d{1,3}\.?$`. -/
def isQNum2 : List Char → Bool
  | c :: rest =>
    let d := countWhile Char.isDigit rest
    (c = 'Q') && decide (1 ≤ d ∧ d ≤ 3) &&
      (decide (rest.drop d = []) || decide (rest.drop d = ['.']))
  | [] => false

/-- Full-match test for `^\d{1,3}\)$`. -/
def isQNum3 (l : List Char) : Bool :=
  let d := countWhile Char.isDigit l
  decide (1 ≤ d ∧ d ≤ 3) && decide (l.drop d = [')'])

/-- Full-match test for `^\(\d{1,3}\)$`. -/
def isQNum4 : List Char → Bool
  | '(' :: rest =>
    let d := countWhile Char.isDigit rest
    decide (1 ≤ d ∧ d ≤ 3) && decide (rest.drop d = [')'])
  | _ => false

/-- Any of the four geometric boundary patterns (src/app.py lines 125–130). -/
def anyQNum (l : List Char) : Bool := isQNum1 l || isQNum2 l || isQNum3 l || isQNum4 l

/-- A surviving boundary detection (one entry of `question_positions`). -/
structure Pos where
  top : Int
  left : Int
  width : Int
  height : Int
  text : String
  confidence : Int
deriving DecidableEq, Repr

/-- The per-token confidence of line 122: the `-1` sentinel reads as 0. -/
def tokConf (t : Token) : Int := if t.conf = -1 then 0 else t.conf

/-- The candidate a token contributes, if its stripped text matches a boundary
pattern with confidence above the floor of 30 (lines 120–133). -/
def candPos (t : Token) : Option Pos :=
  if anyQNum (stripL t.text.data) = true ∧ 30 < tokConf t then
    some ⟨t.top, t.left, t.width, t.height, ⟨stripL t.text.data⟩, tokConf t⟩
  else none

/-- The duplicate test of lines 140–141. -/
def conflictB (a b : Pos) : Bool :=
  decide ((a.top - b.top).natAbs < 10) && decide ((a.left - b.left).natAbs < 20)

/-- Append a candidate unless it duplicates an already-accepted detection. -/
def dedupStep (acc : List Pos) (p : Pos) : List Pos :=
  if acc.any (fun q => conflictB q p) then acc else acc ++ [p]

/-- The candidate-collection fold of the detection loop. -/
def posStep (acc : List Pos) (t : Token) : List Pos :=
  match candPos t with
  | some p => dedupStep acc p
  | none => acc

/-- `(top, left)` lexicographic order used by the final sort (line 155). -/
def posLt (a b : Pos) : Prop := a.top < b.top ∨ (a.top = b.top ∧ a.left < b.left)

instance : DecidableRel posLt := fun a b =>
  inferInstanceAs (Decidable (a.top < b.top ∨ (a.top = b.top ∧ a.left < b.left)))

/-- `detect_question_boundaries_advanced` (src/app.py lines 113–157). -/
def detect_question_boundaries_advanced (data : OcrData) : List Pos :=
  List.insertionSort posLt (data.foldl posStep [])

/-- A grayscale raster: rows of pixel values (0 = black … 255 = white). -/
structure Img where
  pixels : List (List Nat)
deriving DecidableEq, Repr

/-- Image height in pixels. -/
def Img.height (img : Img) : Nat := img.pixels.length

/-- Image width in pixels (rows are uniform for every image the pipeline
builds). -/
def Img.width (img : Img) : Nat := (img.pixels.headD []).length

/-- Pixel lookup; out-of-range coordinates read as 0 (PIL pads crops with
black). -/
def Img.getPix (img : Img) (x y : Int) : Nat :=
  if 0 ≤ x ∧ 0 ≤ y then (img.pixels.getD y.toNat []).getD x.toNat 0 else 0

/-- `img.crop((l, t, r, b))`. -/
def Img.crop (img : Img) (l t r b : Int) : Img :=
  ⟨(List.range (b - t).toNat).map (fun y =>
    (List.range (r - l).toNat).map (fun x =>
      img.getPix (l + (x : Int)) (t + (y : Int))))⟩

/-- Columns that contain at least one dark pixel (value ≤ 240): the nonzero
columns of `gray.point(lambda x: 0 if x > 240 else 255, '1')`. -/
def darkCols (img : Img) : List Nat :=
  (List.range img.width).filter (fun x =>
    img.pixels.any (fun row => decide (row.getD x 255 ≤ 240)))

/-- `trim_horizontal` (src/app.py lines 159–165): crop to the horizontal
extent of the mask's bounding box, keeping full height; identity when the
image has no dark pixel (`getbbox()` is `None`). -/
def trim_horizontal (img : Img) : Img :=
  match darkCols img with
  | [] => img
  | x :: xs =>
    Img.crop img (x : Int) 0 ((xs.getLastD x + 1 : Nat) : Int) (img.height : Int)

/-- `trim_question_number_horizontal` (src/app.py lines 167–193): rightmost
edge (plus 10 px padding) over tokens matching a boundary pattern within 30 px
of the question's top; crop from there when the guard of line 190 holds. -/
def trim_question_number_horizontal (img : Img) (data : OcrData) (qtop : Int) : Img :=
  let qnr : Int := data.foldl (fun acc t =>
    if anyQNum (stripL t.text.data) = true ∧ (t.top - qtop).natAbs < 30 then
      max acc (t.left + t.width + 10)
    else acc) 0
  if 0 < qnr ∧ qnr < (img.width : Int) - 50 then
    Img.crop img qnr 0 (img.width : Int) (img.height : Int)
  else img

/-- `validate_ocr_quality`'s confidence list: entries that are not the `-1`
sentinel and are strictly positive (line 226). -/
def confidentConfs (data : OcrData) : List Int :=
  (data.map (fun t => t.conf)).filter (fun c => decide (c ≠ -1 ∧ 0 < c))

/-- `validate_ocr_quality` (src/app.py lines 224–230): `False` when no
confident token exists, otherwise average confidence strictly above 50
(`sum/len > 50` ⟺ `50·len < sum`). -/
def validate_ocr_quality (data : OcrData) : Bool :=
  let confs := confidentConfs data
  if confs.isEmpty then false
  else decide (50 * (confs.length : Int) < confs.sum)

/-- One output question record (the dict appended at lines 328–334). -/
structure Record where
  text : String
  image : Img
  confidence : Int
  page : Nat
  column : Nat
deriving DecidableEq, Repr

/-- The fallback top-scan of lines 281–291: first-seen distinct tops of
tokens whose stripped text fully matches `^\d{1,3}\.$`, then
`sorted(set(...))`. -/
def fallbackTops (data : OcrData) : List Int :=
  List.insertionSort (fun a b : Int => a < b)
    (data.foldl (fun acc t =>
      if isQNum1 (stripL t.text.data) = true ∧ t.top ∉ acc then acc ++ [t.top]
      else acc) [])

/-- The detection-method selection of lines 277–291: geometric tops only when
strictly more geometric detections than textual questions, otherwise the
fallback scan. -/
def chooseTops (questions : List (String × String)) (positions : List Pos)
    (data : OcrData) : List Int :=
  if questions.length < positions.length then positions.map (fun p => p.top)
  else fallbackTops data

/-- Stem text for loop index `i` (lines 317–324): the stripped textual
question when one exists at `i`, else the sentinel. -/
def mkQText (questions : List (String × String)) (i : Nat) : String :=
  match questions.get? i with
  | some q => ⟨stripL q.2.data⟩
  | none => "(image only)"

/-- Confidence for loop index `i` (lines 318–326). -/
def mkConf (positions : List Pos) (i : Nat) : Int :=
  match positions.get? i with
  | some p => p.confidence
  | none => 0

/-- The crop-and-trim chain for one question region (lines 296–308). -/
def cropAt (img : Img) (data : OcrData) (t1 t2 : Int) : Img :=
  trim_horizontal
    (trim_question_number_horizontal
      (Img.crop img 0 (max 0 (t1 - 15)) (img.width : Int) t2) data t1)

/-- The crop loop of lines 296–335 over consecutive boundary tops: skip
regions under 20 px tall, skip crops under 50×20 px, otherwise emit a record. -/
def regionLoop (questions : List (String × String)) (positions : List Pos)
    (data : OcrData) (img : Img) (page col : Nat) : Nat → List Int → List Record
  | _, [] => []
  | _, [_] => []
  | i, t1 :: t2 :: rest =>
    if t2 - max 0 (t1 - 15) < 20 then
      regionLoop questions positions data img page col (i + 1) (t2 :: rest)
    else if (cropAt img data t1 t2).width < 50 ∨ (cropAt img data t1 t2).height < 20 then
      regionLoop questions positions data img page col (i + 1) (t2 :: rest)
    else
      { text := clean_text (mkQText questions i), image := cropAt img data t1 t2,
        confidence := mkConf positions i, page := page, column := col }
        :: regionLoop questions positions data img page col (i + 1) (t2 :: rest)

/-- Everything the try-block of lines 252–335 does with one page/column's
recognition results: split, detect, choose tops, append the image height,
crop each region. -/
def processRegion (ocr_text : String) (data : OcrData) (img : Img)
    (page col : Nat) : List Record :=
  let questions := split_questions_from_ocr_enhanced ocr_text
  let positions := detect_question_boundaries_advanced data
  regionLoop questions positions data img page col 0
    (chooseTops questions positions data ++ [(img.height : Int)])

/-- What one page/column region yields before the pipeline touches it: the
recognized text, the token table and the rasterized column image — or the
exception raised anywhere inside the region's try-block. -/
abbrev RegionInput := String × OcrData × Img

abbrev RegionOutcome := Except String RegionInput

/-- `processing_stats` (line 239). -/
structure Stats where
  total_pages : Nat
  questions_found : Nat
  low_quality_pages : Nat
deriving DecidableEq, Repr

/-- Accumulated output of `extract_questions_from_columns_enhanced`: the
append-only record list, the `st.error` region-failure warnings
`(page, column, message)`, and the stats counters. -/
structure ExtractResult where
  records : List Record
  warnings : List (Nat × Nat × String)
  stats : Stats
deriving DecidableEq, Repr

/-- The inner column loop (lines 251–339): a failing region only appends a
warning naming its 1-based page and column; a successful region bumps the
low-quality counter by at most one and appends its records. -/
def extractCols (pageIdx : Nat) : Nat → ExtractResult → List RegionOutcome → ExtractResult
  | _, acc, [] => acc
  | colIdx, acc, (Except.error e) :: rest =>
    extractCols pageIdx (colIdx + 1)
      { acc with warnings := acc.warnings ++ [(pageIdx + 1, colIdx + 1, e)] } rest
  | colIdx, acc, (Except.ok (text, data, img)) :: rest =>
    let recs := processRegion text data img (pageIdx + 1) (colIdx + 1)
    extractCols pageIdx (colIdx + 1)
      { records := acc.records ++ recs,
        warnings := acc.warnings,
        stats :=
          { total_pages := acc.stats.total_pages,
            questions_found := acc.stats.questions_found + recs.length,
            low_quality_pages :=
              acc.stats.low_quality_pages +
                (if validate_ocr_quality data then 0 else 1) } } rest

/-- The outer page loop (line 241). -/
def extractPages : Nat → ExtractResult → List (List RegionOutcome) → ExtractResult
  | _, acc, [] => acc
  | pageIdx, acc, cols :: rest =>
    extractPages (pageIdx + 1) (extractCols pageIdx 0 acc cols) rest

/-- `extract_questions_from_columns_enhanced` (src/app.py lines 232–341), over
the per-region recognition outcomes the collaborators produce. -/
def extract_questions_from_columns_enhanced
    (pages : List (List RegionOutcome)) : ExtractResult :=
  extractPages 0
    { records := [], warnings := [],
      stats := { total_pages := pages.length, questions_found := 0,
                 low_quality_pages := 0 } } pages

/-- One row of the generated Word table (lines 350–366): cell 0 holds the
image, cell 1 the question text, cells 2–4 are left empty. -/
structure WordRow where
  textCell : String
  opt1 : String
  opt2 : String
  opt3 : String
deriving DecidableEq, Repr

/-- `generate_word_enhanced`'s table content (src/app.py lines 343–366). -/
def generate_word_enhanced (qs : List Record) : List WordRow :=
  qs.map (fun q => { textCell := q.text, opt1 := "", opt2 := "", opt3 := "" })

/-- The caller's branch on the extraction result (lines 405–409). -/
inductive UIOutcome
  | noQuestions
  | success (n : Nat)
deriving DecidableEq, Repr

/-- Zero records yield the "No questions detected" warning, not an error. -/
def uiOutcome (records : List Record) : UIOutcome :=
  if records.isEmpty then UIOutcome.noQuestions else UIOutcome.success records.length

/-- What one region outcome contributes to the final record list: nothing when
its processing raised, its `processRegion` output otherwise. -/
def regionRecords (pageIdx colIdx : Nat) : RegionOutcome → List Record
  | Except.error _ => []
  | Except.ok (text, data, img) => processRegion text data img (pageIdx + 1) (colIdx + 1)

/-- Compositional form of one page's record contributions. -/
def colsRecords (pageIdx : Nat) : Nat → List RegionOutcome → List Record
  | _, [] => []
  | colIdx, o :: rest => regionRecords pageIdx colIdx o ++ colsRecords pageIdx (colIdx + 1) rest

/-- Compositional form of the whole document's record contributions. -/
def pagesRecords : Nat → List (List RegionOutcome) → List Record
  | _, [] => []
  | pageIdx, cols :: rest => colsRecords pageIdx 0 cols ++ pagesRecords (pageIdx + 1) rest

/-- Compositional form of one page's failure warnings. -/
def colsWarnings (pageIdx : Nat) : Nat → List RegionOutcome → List (Nat × Nat × String)
  | _, [] => []
  | colIdx, (Except.error e) :: rest =>
    (pageIdx + 1, colIdx + 1, e) :: colsWarnings pageIdx (colIdx + 1) rest
  | colIdx, (Except.ok _) :: rest => colsWarnings pageIdx (colIdx + 1) rest

/-- Compositional form of the whole document's failure warnings. -/
def pagesWarnings : Nat → List (List RegionOutcome) → List (Nat × Nat × String)
  | _, [] => []
  | pageIdx, cols :: rest => colsWarnings pageIdx 0 cols ++ pagesWarnings (pageIdx + 1) rest

/-- The duplicate-detection proximity relation, as a proposition. -/
def ConflictP (a b : Pos) : Prop :=
  (a.top - b.top).natAbs < 10 ∧ (a.left - b.left).natAbs < 20

/-- The two-question plain-numeric scenario input of the specification. -/
def scenario1 : String :=
  "1. What is 2+2? (A) 3 (B) 4 (C) 5\n2. What is the capital of France? (A) Paris (B) Lyon"

/-- A text with five line-anchored `N.` markers and two line-anchored `(N)`
markers. -/
def sample2 : String := "1. a\n2. b\n3. c\n4. d\n5. e\n(1) x\n(2) y"

/-- One OCR token `Q1.` — a geometric boundary the fallback scan ignores. -/
def data3 : OcrData := [⟨"Q1.", 80, 40, 5, 30, 12⟩]

/-- Two candidate tokens closer than 10 px vertically and 20 px
horizontally. -/
def data5 : OcrData := [⟨"1.", 80, 0, 0, 5, 5⟩, ⟨"2.", 90, 5, 5, 5, 5⟩]

/-- The first-seen survivor of `data5`. -/
def pos5 : Pos := ⟨0, 0, 5, 5, "1.", 80⟩

/-- A single token whose confidence sits exactly on the 50 average. -/
def data7 : OcrData := [⟨"w", 50, 0, 0, 0, 0⟩]

/-- One boundary token at top 15 for an image-only region. -/
def data9 : OcrData := [⟨"1.", 80, 15, 1, 2, 3⟩]

/-- An all-white 55×21 column image (wide and tall enough to survive the
crop-size guards). -/
def img9 : Img := ⟨List.replicate 21 (List.replicate 55 255)⟩

/-- The record the image-only region of `data9`/`img9` emits. -/
def rec9 : Record := ⟨"(image only)", img9, 80, 1, 1⟩

/-- An all-white 40×21 column image — too narrow for the 50 px width guard. -/
def img10 : Img := ⟨List.replicate 21 (List.replicate 40 255)⟩

/-- The empty image. -/
def imgEmpty : Img := ⟨[]⟩

/-- A minimal record used to exercise the Word-table generator. -/
def recW : Record := ⟨"x", imgEmpty, 0, 1, 1⟩

/-- A text in which no boundary pattern matches anywhere. -/
def s6 : String := "hello world, nothing here"

/-- A one-page document whose only region raises. -/
def pages8 : List (List RegionOutcome) := [[Except.error "boom"]]

set_option maxRecDepth 1000000

theorem detStep_le (l : List Char) (best : List RMatch) (i : Fin 6) :
    best.length ≤ (detStep l best i).length := by
  unfold detStep; split
  · exact Nat.le_of_lt (by assumption)
  · exact Nat.le_refl _

theorem foldl_detStep_le (l : List Char) (is : List (Fin 6)) :
    ∀ best : List RMatch, best.length ≤ (is.foldl (detStep l) best).length := by
  induction is with
  | nil => intro best; exact Nat.le_refl _
  | cons i is ih =>
    intro best
    simp only [List.foldl_cons]
    exact Nat.le_trans (detStep_le l best i) (ih _)

theorem foldl_detStep_shape (l : List Char) (is : List (Fin 6)) :
    ∀ best : List RMatch, (best = [] ∨ ∃ i, best = matchesOfPat i l) →
      (is.foldl (detStep l) best = [] ∨ ∃ i, is.foldl (detStep l) best = matchesOfPat i l) := by
  induction is with
  | nil => intro best h; exact h
  | cons i is ih =>
    intro best h
    simp only [List.foldl_cons]
    refine ih _ ?_
    unfold detStep; split
    · exact Or.inr ⟨i, rfl⟩
    · exact h

theorem foldl_detStep_ge (l : List Char) (is : List (Fin 6)) :
    ∀ (best : List RMatch) (j : Fin 6), j ∈ is →
      (matchesOfPat j l).length ≤ (is.foldl (detStep l) best).length := by
  induction is with
  | nil => intro best j h; cases h
  | cons i is ih =>
    intro best j h
    simp only [List.foldl_cons]
    rcases List.mem_cons.mp h with rfl | h2
    · refine Nat.le_trans ?_ (foldl_detStep_le l is _)
      unfold detStep; split
      · exact Nat.le_refl _
      · exact Nat.not_lt.mp (by assumption)
    · exact ih _ j h2

/-- C2: for every input, `enhanced_question_detection` returns exactly the
match set of one of the six registered pattern families, and that family's
match count is maximal among all six; on a text with five line-anchored `N.`
markers and two line-anchored `(N)` markers it returns the `N.` family's five
matches. -/
theorem C2_count_maximization :
    (∀ l : List Char, ∃ i : Fin 6,
        enhanced_question_detection l = matchesOfPat i l ∧
        ∀ j : Fin 6, (matchesOfPat j l).length ≤ (matchesOfPat i l).length)
    ∧ enhanced_question_detection sample2.data = matchesOfPat 0 sample2.data
    ∧ (enhanced_question_detection sample2.data).length = 5
    ∧ (matchesOfPat 3 sample2.data).length = 2 := by
  refine ⟨?_, by decide, by decide, by decide⟩
  intro l
  have hshape := foldl_detStep_shape l (List.finRange 6) [] (Or.inl rfl)
  have hge : ∀ j : Fin 6,
      (matchesOfPat j l).length ≤ ((List.finRange 6).foldl (detStep l) []).length :=
    fun j => foldl_detStep_ge l (List.finRange 6) [] j (List.mem_finRange j)
  rcases hshape with h0 | ⟨i, hi⟩
  · refine ⟨0, ?_, ?_⟩
    · have hz : (matchesOfPat 0 l).length = 0 := by
        have h1 := hge 0
        rw [h0] at h1
        simpa using h1
      rw [List.length_eq_zero.mp hz]
      exact h0
    · intro j
      have h1 := hge j
      rw [h0] at h1
      have hz : (matchesOfPat 0 l).length = 0 := by
        have h2 := hge 0
        rw [h0] at h2
        simpa using h2
      simp only [List.length_nil, Nat.le_zero] at h1
      omega
  · exact ⟨i, hi, fun j => by rw [← hi]; exact hge j⟩

/-- C1 fails as stated: on the plain-numeric two-question scenario input the
pipeline does not emit two records with the claimed stems (it emits a single
record — normalization collapses the newline, so only the first marker is
line-anchored, and the option-removal rewrite deletes the second question's
text along with the option segments). -/
theorem C1_options_counterexample :
    ¬ ((split_questions_from_ocr_enhanced scenario1).map (fun q => q.2) =
        ["What is 2+2?", "What is the capital of France?"]) := by decide

/-- C1 amended: the splitter deletes the trailing `(A)…`-marked segments from
a question's text instead of collecting an option list; on the scenario input
it emits exactly one record, `("1.", "What is 2+2?")`, and the serialized
table always leaves the three cells after the stem cell empty. -/
theorem C1_options_amended :
    split_questions_from_ocr_enhanced scenario1 = [("1.", "What is 2+2?")]
    ∧ ∀ qs : List Record, ∀ row ∈ generate_word_enhanced qs,
        row.opt1 = "" ∧ row.opt2 = "" ∧ row.opt3 = "" := by
  refine ⟨by decide, ?_⟩
  intro qs row hrow
  simp only [generate_word_enhanced, List.mem_map] at hrow
  obtain ⟨q, -, rfl⟩ := hrow
  exact ⟨rfl, rfl, rfl⟩

theorem C1_options_amended_witness :
    ({ textCell := "x", opt1 := "", opt2 := "", opt3 := "" } : WordRow).opt1 = ""
    ∧ ({ textCell := "x", opt1 := "", opt2 := "", opt3 := "" } : WordRow).opt2 = ""
    ∧ ({ textCell := "x", opt1 := "", opt2 := "", opt3 := "" } : WordRow).opt3 = "" :=
  C1_options_amended.2 [recW] _ (by decide)

/-- C3 fails as stated: with one textual question and one geometric detection
(a tie), the segmentation does not use the geometric anchors — the tops come
from the fallback digit-period token scan, which here finds nothing, so the
chosen anchor list is empty while the geometric method had an anchor at 40. -/
theorem C3_tie_counterexample :
    (detect_question_boundaries_advanced data3).length
      = (split_questions_from_ocr_enhanced "Q1. Who").length
    ∧ (detect_question_boundaries_advanced data3).map (fun p => p.top) = [40]
    ∧ chooseTops (split_questions_from_ocr_enhanced "Q1. Who")
        (detect_question_boundaries_advanced data3) data3 = [] := by decide

/-- C3 amended: geometric detections define the segmentation only when they
strictly outnumber the textual questions; otherwise — including ties — the
segmentation is defined by the fallback scan of the token table for
`^\d{1,3}\.$` markers, not by the geometric anchors. -/
theorem C3_selection_amended :
    ∀ (questions : List (String × String)) (positions : List Pos) (data : OcrData),
      (questions.length < positions.length →
        chooseTops questions positions data = positions.map (fun p => p.top))
      ∧ (positions.length ≤ questions.length →
        chooseTops questions positions data = fallbackTops data) := by
  intro questions positions data
  constructor
  · intro h; simp [chooseTops, h]
  · intro h; simp [chooseTops, Nat.not_lt.mpr h]

theorem C3_selection_amended_witness :
    chooseTops (split_questions_from_ocr_enhanced "Q1. Who")
      (detect_question_boundaries_advanced data3) data3 = fallbackTops data3 :=
  (C3_selection_amended _ _ _).2 (by decide)

/-- C4: the code contradicts the claim (and its own inline comment): the
normalizer's first rewrite collapses every whitespace run — newlines included
— so a paragraph break does not survive normalization; the `\n{3,}` step that
was meant to preserve paragraph structure is unreachable.  Totality on the
empty string does hold. -/
theorem C4_paragraph_code_bug :
    preprocess_ocr_text "a\n\nb" = "a b" ∧ preprocess_ocr_text "" = "" := by decide

theorem conflictB_iff (a b : Pos) : conflictB a b = true ↔ ConflictP a b := by
  simp [conflictB, ConflictP]

theorem ConflictP_comm {a b : Pos} (h : ConflictP a b) : ConflictP b a := by
  obtain ⟨h1, h2⟩ := h
  exact ⟨by omega, by omega⟩

theorem candPos_conf {t : Token} {q : Pos} (h : candPos t = some q) : 30 < q.confidence := by
  unfold candPos at h
  split_ifs at h with hc
  cases h
  exact hc.2

theorem dedup_inv (data : OcrData) :
    ∀ acc : List Pos,
      acc.Pairwise (fun a b => ¬ ConflictP a b) →
      (∀ p ∈ acc, 30 < p.confidence) →
      (data.foldl posStep acc).Pairwise (fun a b => ¬ ConflictP a b)
      ∧ ∀ p ∈ data.foldl posStep acc, 30 < p.confidence := by
  induction data with
  | nil => intro acc h1 h2; exact ⟨h1, h2⟩
  | cons t rest ih =>
    intro acc h1 h2
    simp only [List.foldl_cons]
    refine ih _ ?_ ?_
    · cases hc : candPos t with
      | none => simp only [posStep, hc]; exact h1
      | some p =>
        simp only [posStep, hc, dedupStep]
        split_ifs with hna
        · exact h1
        · rw [List.pairwise_append]
          refine ⟨h1, List.pairwise_singleton _ _, ?_⟩
          intro a ha b hb
          rw [List.mem_singleton] at hb
          subst hb
          intro hcf
          apply hna
          rw [List.any_eq_true]
          exact ⟨a, ha, (conflictB_iff a b).mpr hcf⟩
    · cases hc : candPos t with
      | none => simp only [posStep, hc]; exact h2
      | some p =>
        simp only [posStep, hc, dedupStep]
        split_ifs with hna
        · exact h2
        · intro x hx
          rcases List.mem_append.mp hx with hx1 | hx2
          · exact h2 x hx1
          · rw [List.mem_singleton] at hx2
            subst hx2
            exact candPos_conf hc

theorem foldl_posStep_subset (data : OcrData) :
    ∀ acc : List Pos, acc ⊆ data.foldl posStep acc := by
  induction data with
  | nil => intro acc x h; exact h
  | cons t rest ih =>
    intro acc
    simp only [List.foldl_cons]
    refine List.Subset.trans ?_ (ih _)
    cases hc : candPos t with
    | none => simp only [posStep, hc]; exact fun x h => h
    | some p =>
      simp only [posStep, hc, dedupStep]
      split_ifs with hna
      · exact fun x h => h
      · exact fun x h => List.mem_append_left _ h

theorem dedup_cover (data : OcrData) :
    ∀ (acc : List Pos) (t : Token), t ∈ data → ∀ q, candPos t = some q →
      ∃ p ∈ data.foldl posStep acc, ConflictP p q := by
  induction data with
  | nil => intro acc t h; cases h
  | cons t0 rest ih =>
    intro acc t ht q hq
    simp only [List.foldl_cons]
    rcases List.mem_cons.mp ht with rfl | h2
    · have hstep : ∃ p ∈ posStep acc t, ConflictP p q := by
        simp only [posStep, hq, dedupStep]
        split_ifs with hany
        · rw [List.any_eq_true] at hany
          obtain ⟨x, hx, hcx⟩ := hany
          exact ⟨x, hx, (conflictB_iff x q).mp hcx⟩
        · refine ⟨q, List.mem_append_right _ (List.mem_singleton_self q), ?_, ?_⟩
          · omega
          · omega
      obtain ⟨p, hp, hcf⟩ := hstep
      exact ⟨p, foldl_posStep_subset rest _ hp, hcf⟩
    · exact ih _ t h2 q hq

/-- C5: in geometric mode no two surviving boundary detections are within
both 10 px vertically and 20 px horizontally of each other; every survivor's
recognition confidence is above the floor of 30; and every candidate token is
within that radius of some survivor (the earlier-seen detection that
suppressed it, or itself), i.e. a candidate is only dropped in favour of an
already-accepted one. -/
theorem C5_dedup_invariant : ∀ data : OcrData,
    List.Pairwise (fun a b => ¬ ConflictP a b) (detect_question_boundaries_advanced data)
    ∧ (∀ p ∈ detect_question_boundaries_advanced data, 30 < p.confidence)
    ∧ (∀ t ∈ data, ∀ q, candPos t = some q →
        ∃ p ∈ detect_question_boundaries_advanced data, ConflictP p q) := by
  intro data
  have hperm : (detect_question_boundaries_advanced data).Perm (data.foldl posStep []) := by
    unfold detect_question_boundaries_advanced
    exact List.perm_insertionSort posLt _
  have hsym : ∀ {x y : Pos}, (¬ ConflictP x y) → ¬ ConflictP y x :=
    fun h hc => h (ConflictP_comm hc)
  have hinv := dedup_inv data [] List.Pairwise.nil (by intro p h; cases h)
  refine ⟨?_, ?_, ?_⟩
  · exact (hperm.pairwise_iff hsym).mpr hinv.1
  · intro p hp
    exact hinv.2 p (hperm.mem_iff.mp hp)
  · intro t ht q hq
    obtain ⟨p, hp, hc⟩ := dedup_cover data [] t ht q hq
    exact ⟨p, hperm.mem_iff.mpr hp, hc⟩

theorem C5_dedup_invariant_witness : 30 < pos5.confidence :=
  (C5_dedup_invariant data5).2.1 pos5 (by decide)

theorem det_all_empty {l : List Char} (h : ∀ i : Fin 6, matchesOfPat i l = []) :
    enhanced_question_detection l = [] := by
  unfold enhanced_question_detection
  have hfold : ∀ (is : List (Fin 6)) (best : List RMatch), is.foldl (detStep l) best = best := by
    intro is
    induction is with
    | nil => intro best; rfl
    | cons i is ih =>
      intro best
      have hstep : detStep l best i = best := by
        unfold detStep
        rw [h i]
        simp
      simp only [List.foldl_cons, hstep]
      exact ih best
  exact hfold _ []

theorem extract_singleton (t : String) (d : OcrData) (im : Img) :
    extract_questions_from_columns_enhanced [[Except.ok (t, d, im)]] =
      { records := processRegion t d im 1 1,
        warnings := [],
        stats := { total_pages := 1,
                   questions_found := (processRegion t d im 1 1).length,
                   low_quality_pages := if validate_ocr_quality d then 0 else 1 } } := by
  simp [extract_questions_from_columns_enhanced, extractPages, extractCols]

/-- C6: when no registered boundary pattern and no fallback numeric-marker
pattern matches anywhere in the normalized text, the splitter returns the
empty list and (for a document made of such a region) the caller's branch is
the user-facing "no questions detected" outcome, not an error. -/
theorem C6_empty_segmentation : ∀ s : String,
    (∀ i : Fin 6, matchesOfPat i (preprocessL s.data) = []) →
    fallbackMatches (preprocessL s.data) = [] →
    split_questions_from_ocr_enhanced s = []
    ∧ uiOutcome (extract_questions_from_columns_enhanced
        [[Except.ok (s, [], imgEmpty)]]).records = UIOutcome.noQuestions := by
  intro s h1 h2
  have hdet := det_all_empty h1
  have hsplit : split_questions_from_ocr_enhanced s = [] := by
    simp [split_questions_from_ocr_enhanced, hdet, h2, buildFallback]
  refine ⟨hsplit, ?_⟩
  rw [extract_singleton]
  have hrec : processRegion s [] imgEmpty 1 1 = [] := by
    simp only [processRegion, hsplit]
    rfl
  simp [hrec, uiOutcome]

theorem C6_empty_segmentation_witness :
    split_questions_from_ocr_enhanced s6 = []
    ∧ uiOutcome (extract_questions_from_columns_enhanced
        [[Except.ok (s6, [], imgEmpty)]]).records = UIOutcome.noQuestions :=
  C6_empty_segmentation s6 (by decide) (by decide)

/-- C7 amended: a region is flagged low quality exactly when it has no
confident token or the average confidence over confident tokens is at most 50
(the claim's strict "below 50" fails at the boundary); the stats counter
increments exactly once per flagged region, and the record list of a region
is computed independently of the flag — no record is dropped by it. -/
theorem C7_quality_amended :
    (∀ data : OcrData, validate_ocr_quality data = false ↔
      (confidentConfs data = [] ∨
        (confidentConfs data).sum ≤ 50 * ((confidentConfs data).length : Int)))
    ∧ (∀ (t : String) (d : OcrData) (im : Img),
        (extract_questions_from_columns_enhanced [[Except.ok (t, d, im)]]).stats.low_quality_pages
          = if validate_ocr_quality d then 0 else 1)
    ∧ (∀ (t : String) (d : OcrData) (im : Img),
        (extract_questions_from_columns_enhanced [[Except.ok (t, d, im)]]).records
          = processRegion t d im 1 1) := by
  refine ⟨?_, ?_, ?_⟩
  · intro data
    unfold validate_ocr_quality
    by_cases h : confidentConfs data = []
    · simp [h]
    · have h2 : ¬ ((confidentConfs data).isEmpty = true) :=
        fun hh => h (List.isEmpty_iff.mp hh)
      rw [if_neg h2]
      simp only [h, false_or]
      rw [decide_eq_false_iff_not]
      exact not_lt
  · intro t d im
    rw [extract_singleton]
  · intro t d im
    rw [extract_singleton]

/-- C7 fails as stated at the boundary: a region whose single confident token
has confidence exactly 50 is flagged low quality, although its average is not
below 50 and confident tokens exist. -/
theorem C7_quality_counterexample :
    validate_ocr_quality data7 = false
    ∧ ¬ (confidentConfs data7 = [] ∨
          (confidentConfs data7).sum < 50 * ((confidentConfs data7).length : Int)) := by
  decide

theorem extractCols_spec (cols : List RegionOutcome) :
    ∀ (pageIdx colIdx : Nat) (acc : ExtractResult),
      (extractCols pageIdx colIdx acc cols).records
        = acc.records ++ colsRecords pageIdx colIdx cols
      ∧ (extractCols pageIdx colIdx acc cols).warnings
        = acc.warnings ++ colsWarnings pageIdx colIdx cols := by
  induction cols with
  | nil => intro pageIdx colIdx acc; simp [extractCols, colsRecords, colsWarnings]
  | cons o rest ih =>
    intro pageIdx colIdx acc
    cases o with
    | error e =>
      simp only [extractCols, colsRecords, colsWarnings, regionRecords]
      rw [(ih pageIdx (colIdx + 1) _).1, (ih pageIdx (colIdx + 1) _).2]
      constructor
      · simp
      · simp
    | ok x =>
      obtain ⟨t, d, im⟩ := x
      simp only [extractCols, colsRecords, colsWarnings, regionRecords]
      rw [(ih pageIdx (colIdx + 1) _).1, (ih pageIdx (colIdx + 1) _).2]
      constructor
      · simp
      · simp

theorem extractPages_spec (pages : List (List RegionOutcome)) :
    ∀ (pageIdx : Nat) (acc : ExtractResult),
      (extractPages pageIdx acc pages).records
        = acc.records ++ pagesRecords pageIdx pages
      ∧ (extractPages pageIdx acc pages).warnings
        = acc.warnings ++ pagesWarnings pageIdx pages := by
  induction pages with
  | nil => intro pageIdx acc; simp [extractPages, pagesRecords, pagesWarnings]
  | cons cols rest ih =>
    intro pageIdx acc
    simp only [extractPages, pagesRecords, pagesWarnings]
    rw [(ih (pageIdx + 1) _).1, (ih (pageIdx + 1) _).2,
      (extractCols_spec cols pageIdx 0 acc).1, (extractCols_spec cols pageIdx 0 acc).2]
    constructor
    · simp
    · simp

theorem colsWarnings_mem (cols : List RegionOutcome) :
    ∀ (pageIdx colIdx c : Nat) (e : String),
      cols.get? c = some (Except.error e) →
      (pageIdx + 1, colIdx + c + 1, e) ∈ colsWarnings pageIdx colIdx cols := by
  induction cols with
  | nil => intro _ _ c e h; simp [List.get?] at h
  | cons o rest ih =>
    intro pageIdx colIdx c e h
    cases c with
    | zero =>
      simp only [List.get?] at h
      injection h with h1
      subst h1
      simp [colsWarnings]
    | succ c =>
      simp only [List.get?] at h
      have h3 := ih pageIdx (colIdx + 1) c e h
      have heq : colIdx + 1 + c + 1 = colIdx + (c + 1) + 1 := by omega
      rw [heq] at h3
      cases o with
      | error e2 => exact List.mem_cons_of_mem _ h3
      | ok x => exact h3

theorem pagesWarnings_mem (pages : List (List RegionOutcome)) :
    ∀ (pageIdx p c : Nat) (e : String) (cols : List RegionOutcome),
      pages.get? p = some cols → cols.get? c = some (Except.error e) →
      (pageIdx + p + 1, c + 1, e) ∈ pagesWarnings pageIdx pages := by
  induction pages with
  | nil => intro _ p _ _ _ h; simp [List.get?] at h
  | cons cols0 rest ih =>
    intro pageIdx p c e cols h1 h2
    cases p with
    | zero =>
      simp only [List.get?] at h1
      injection h1 with h1
      subst h1
      have h3 := colsWarnings_mem cols0 pageIdx 0 c e h2
      simp only [pagesWarnings]
      refine List.mem_append_left _ ?_
      have heq : 0 + c + 1 = c + 1 := by omega
      rw [heq] at h3
      exact h3
    | succ p =>
      simp only [List.get?] at h1
      have h3 := ih (pageIdx + 1) p c e cols h1 h2
      have heq : pageIdx + 1 + p + 1 = pageIdx + (p + 1) + 1 := by omega
      rw [heq] at h3
      simp only [pagesWarnings]
      exact List.mem_append_right _ h3

/-- C8: the extraction loop's record list is exactly the concatenation of the
per-region contributions, where a region whose processing raises contributes
nothing — so one region's failure never aborts processing or discards other
regions' results — and every failing region is surfaced as a warning naming
its 1-based page and column. -/
theorem C8_region_isolation :
    (∀ pages, (extract_questions_from_columns_enhanced pages).records = pagesRecords 0 pages)
    ∧ (∀ (pages : List (List RegionOutcome)) (p c : Nat) (e : String)
        (cols : List RegionOutcome),
        pages.get? p = some cols → cols.get? c = some (Except.error e) →
        (p + 1, c + 1, e) ∈ (extract_questions_from_columns_enhanced pages).warnings) := by
  constructor
  · intro pages
    unfold extract_questions_from_columns_enhanced
    rw [(extractPages_spec pages 0 _).1]
    simp
  · intro pages p c e cols h1 h2
    unfold extract_questions_from_columns_enhanced
    rw [(extractPages_spec pages 0 _).2]
    simp only [List.nil_append]
    have h3 := pagesWarnings_mem pages 0 p c e cols h1 h2
    have heq : 0 + p + 1 = p + 1 := by omega
    rw [heq] at h3
    exact h3

theorem C8_region_isolation_witness : ((1 : Nat), (1 : Nat), "boom")
    ∈ (extract_questions_from_columns_enhanced pages8).warnings :=
  C8_region_isolation.2 pages8 0 0 "boom" [Except.error "boom"] rfl rfl

theorem regionLoop_image_bounds (questions : List (String × String)) (positions : List Pos)
    (data : OcrData) (img : Img) (page col : Nat) (tops : List Int) :
    ∀ (i : Nat) (r : Record), r ∈ regionLoop questions positions data img page col i tops →
      50 ≤ r.image.width ∧ 20 ≤ r.image.height := by
  induction tops with
  | nil => intro i r h; simp [regionLoop] at h
  | cons t1 ts ih =>
    cases ts with
    | nil => intro i r h; simp [regionLoop] at h
    | cons t2 rest =>
      intro i r h
      simp only [regionLoop] at h
      split_ifs at h with h1 h2
      · exact ih (i + 1) r h
      · exact ih (i + 1) r h
      · rcases List.mem_cons.mp h with rfl | h3
        · push_neg at h2
          exact ⟨h2.1, h2.2⟩
        · exact ih (i + 1) r h3

theorem regionLoop_imageOnly (positions : List Pos) (data : OcrData) (img : Img)
    (page col : Nat) (tops : List Int) :
    ∀ (i : Nat) (r : Record), r ∈ regionLoop [] positions data img page col i tops →
      r.text = "(image only)" := by
  induction tops with
  | nil => intro i r h; simp [regionLoop] at h
  | cons t1 ts ih =>
    cases ts with
    | nil => intro i r h; simp [regionLoop] at h
    | cons t2 rest =>
      intro i r h
      simp only [regionLoop] at h
      split_ifs at h with h1 h2
      · exact ih (i + 1) r h
      · exact ih (i + 1) r h
      · rcases List.mem_cons.mp h with rfl | h3
        · rfl
        · exact ih (i + 1) r h3

/-- C9: whenever a region has no textual question at a loop index (in
particular when recognition produced no questions at all), the record emitted
for that index carries exactly the sentinel stem `"(image only)"`. -/
theorem C9_image_only_sentinel :
    ∀ (text : String) (data : OcrData) (img : Img) (page col : Nat),
      split_questions_from_ocr_enhanced text = [] →
      ∀ r ∈ processRegion text data img page col, r.text = "(image only)" := by
  intro text data img page col hsplit r hr
  simp only [processRegion, hsplit] at hr
  exact regionLoop_imageOnly _ _ _ _ _ _ _ r hr

theorem C9_image_only_sentinel_witness : rec9.text = "(image only)" :=
  C9_image_only_sentinel "" data9 img9 1 1 (by decide) rec9 (by decide)

/-- C10: every emitted record's cropped image is at least 50 px wide and
20 px tall; a region whose crop falls below either bound is skipped and
produces no record even when stem text was detected — on the narrow
`img10` column the textual question `("1.", "hello")` is found yet the
region yields no record at all. -/
theorem C10_crop_bounds :
    (∀ (text : String) (data : OcrData) (img : Img) (page col : Nat),
      ∀ r ∈ processRegion text data img page col,
        50 ≤ r.image.width ∧ 20 ≤ r.image.height)
    ∧ processRegion "1. hello" data9 img10 1 1 = []
    ∧ split_questions_from_ocr_enhanced "1. hello" = [("1.", "hello")] := by
  refine ⟨?_, by decide, by decide⟩
  intro text data img page col r hr
  simp only [processRegion] at hr
  exact regionLoop_image_bounds _ _ _ _ _ _ _ _ r hr

theorem C10_crop_bounds_witness : 50 ≤ rec9.image.width ∧ 20 ≤ rec9.image.height :=
  C10_crop_bounds.1 "" data9 img9 1 1 rec9 (by decide)
